import Mathlib

/-!
Shallow embedding of the cheese scraper (batch_scrape.py): the string helpers,
a small backtracking regular-expression engine mirroring Python `re.search`
semantics for the patterns the scraper uses, the `CheeseParser` event handlers,
the `extract_data` inference cascade, and the record validator, together with
theorems checking the claims of the specification against this embedding.
-/

set_option maxHeartbeats 1000000
set_option maxRecDepth 10000

namespace Cheese

/-- Python whitespace predicate, as used by `str.split()`, `str.strip()` and
the regex class backslash-s (ASCII range). -/
def pyIsSpace (c : Char) : Bool :=
  c = ' ' || c = '\t' || c = '\n' || c = '\r' || c = Char.ofNat 11 || c = Char.ofNat 12

/-- Regex word-character class backslash-w (ASCII range). -/
def pyIsWord (c : Char) : Bool := c.isAlphanum || c = '_'

/-- The ASCII apostrophe character. -/
def apos : Char := Char.ofNat 39

/-- Python `str.lower()` (ASCII range). -/
def pyLower (s : List Char) : List Char := s.map Char.toLower

/-- Worker for `pyTitle`; the flag records whether the previous character was
alphabetic. -/
def pyTitleGo : Bool → List Char → List Char
  | _, [] => []
  | prev, c :: r =>
    if c.isAlpha then (if prev then c.toLower else c.toUpper) :: pyTitleGo true r
    else c :: pyTitleGo false r

/-- Python `str.title()` (ASCII range): a letter following a non-letter is
uppercased, a letter following a letter is lowercased. -/
def pyTitle (s : List Char) : List Char := pyTitleGo false s

/-- Python `str.strip()`: drop leading and trailing whitespace. -/
def pyStrip (s : List Char) : List Char :=
  ((s.dropWhile pyIsSpace).reverse.dropWhile pyIsSpace).reverse

/-- Worker for Python `str.split()` with no separator: split on whitespace
runs, dropping empty pieces.  The accumulator holds the current word
reversed. -/
def splitWsGo : List Char → List Char → List (List Char)
  | acc, [] => if acc.isEmpty then [] else [acc.reverse]
  | acc, c :: r =>
    if pyIsSpace c then
      if acc.isEmpty then splitWsGo [] r else acc.reverse :: splitWsGo [] r
    else splitWsGo (c :: acc) r

/-- Python `' '.join(words)`. -/
def joinSpace : List (List Char) → List Char
  | [] => []
  | [w] => w
  | w :: ws => w ++ ' ' :: joinSpace ws

/-- Python substring test `needle in hay`. -/
def listSub (n : List Char) : List Char → Bool
  | [] => n.isEmpty
  | c :: r => n.isPrefixOf (c :: r) || listSub n r

/-- Python `s.split(sep)[0]`: the prefix of `s` before the first occurrence of
the (non-empty) literal `l`, or all of `s` when `l` does not occur. -/
def takeUntilLit (l : List Char) : List Char → List Char
  | [] => []
  | c :: r => if l.isPrefixOf (c :: r) then [] else c :: takeUntilLit l r

/-- Label alternation of the `re.split` call in `_clean_text`, in source order:
`Type:|Texture:|Rind:|Flavou?r:` (case-sensitive, exactly as in the source,
which passes no IGNORECASE flag to `re.split`). -/
def labelStrings : List (List Char) :=
  [("Type:".toList), ("Texture:".toList), ("Rind:".toList), ("Flavour:".toList), ("Flavor:".toList)]

/-- Python `re.split` on the label alternation, index 0: the prefix
of `text` before the first (case-sensitive) occurrence of any label. -/
def splitLabelsGo : List Char → List Char
  | [] => []
  | c :: r => if labelStrings.any (fun l => l.isPrefixOf (c :: r)) then [] else c :: splitLabelsGo r

/-- Model of `CheeseParser._clean_text`: collapse whitespace runs to single spaces,
cut at the first label occurrence, then strip. -/
def cleanText (s : List Char) : List Char :=
  pyStrip (splitLabelsGo (joinSpace (splitWsGo [] s)))

/-! ### A small backtracking regex engine

The engine mirrors Python `re` backtracking semantics for the constructs the
patterns of the scraper use: leftmost search, alternatives tried left to right,
greedy star/option, a single capture group, case-insensitive literals
(every search in the scraper passes `re.IGNORECASE`), and a fixed-width negative
lookbehind.  `reMatch` is structurally recursive on a fuel counter so that the
kernel can evaluate it; `fuelFor` supplies more fuel than any search over the
given input can consume, since every star iteration must consume input. -/

/-- Matcher state: the consumed prefix in reverse (for lookbehind), the
remaining input, and the capture of group 1 if taken. -/
structure MState where
  left : List Char
  rest : List Char
  g1 : Option (List Char)
deriving Repr, DecidableEq

/-- Regular expression syntax for the patterns of the scraper. -/
inductive RE where
  | eps
  | pred (p : Char → Bool)
  | lit (l : List Char)
  | seq (a b : RE)
  | alt (a b : RE)
  | star (a : RE)
  | opt (a : RE)
  | grp (a : RE)
  | nlb (ps : List (Char → Bool))

/-- Consume a case-insensitive literal from the head of the input, returning
the remainder on success. -/
def consumeCI : List Char → List Char → Option (List Char)
  | [], s => some s
  | _ :: _, [] => none
  | l :: ls, c :: s => if c.toLower = l.toLower then consumeCI ls s else none

/-- Backtracking matcher in continuation-passing style.  Alternatives are
tried in order, `star` and `opt` are greedy, and a `star` body must consume
input for the iteration to count (none of the starred
subexpressions can match the empty string). -/
def reMatch : Nat → RE → MState → (MState → Option MState) → Option MState
  | 0, _, _, _ => none
  | fuel + 1, re, m, k =>
    match re with
    | .eps => k m
    | .pred p =>
      match m.rest with
      | [] => none
      | c :: r => if p c then k ⟨c :: m.left, r, m.g1⟩ else none
    | .lit l =>
      match consumeCI l m.rest with
      | some r => k ⟨(m.rest.take l.length).reverse ++ m.left, r, m.g1⟩
      | none => none
    | .seq a b => reMatch fuel a m (fun m2 => reMatch fuel b m2 k)
    | .alt a b =>
      match reMatch fuel a m k with
      | some r => some r
      | none => reMatch fuel b m k
    | .star a =>
      match reMatch fuel a m (fun m2 =>
        if m2.rest.length < m.rest.length then reMatch fuel (.star a) m2 k else none) with
      | some r => some r
      | none => k m
    | .opt a =>
      match reMatch fuel a m k with
      | some r => some r
      | none => k m
    | .grp a =>
      reMatch fuel a m (fun m2 =>
        k ⟨m2.left, m2.rest, some (m.rest.take (m.rest.length - m2.rest.length))⟩)
    | .nlb ps =>
      if ps.length ≤ m.left.length && (List.zip ps.reverse m.left).all (fun pc => pc.1 pc.2) then
        none
      else k m

/-- Fuel bound: generous overestimate of the recursion depth of any match
attempt over `s` with the fixed, small patterns of the scraper. -/
def fuelFor (s : List Char) : Nat := 200 * s.length + 400

/-- Python `re.search`: try a match at each start position, left to right.
`left` is the reversed prefix before the current start position. -/
def searchFrom (re : RE) : List Char → List Char → Option MState
  | left, [] =>
    match reMatch (fuelFor []) re ⟨left, [], none⟩ some with
    | some m => some m
    | none => none
  | left, c :: r =>
    match reMatch (fuelFor (c :: r)) re ⟨left, c :: r, none⟩ some with
    | some m => some m
    | none => searchFrom re (c :: left) r

/-- Python `re.search(pattern, s, re.IGNORECASE)`, returning the final match
state of the leftmost match. -/
def reSearch (re : RE) (s : List Char) : Option MState := searchFrom re [] s

/-- Python `match.group(1)` of the leftmost match, or `None` when the search
fails. -/
def reGroup1 (re : RE) (s : List Char) : Option (List Char) :=
  match reSearch re s with
  | some m => m.g1
  | none => none

/-! ### Patterns of the scraper -/

def wsStar : RE := .star (.pred pyIsSpace)

def wsPlus : RE := .seq (.pred pyIsSpace) (.star (.pred pyIsSpace))

def wordPlus : RE := .seq (.pred pyIsWord) (.star (.pred pyIsWord))

/-- Character class `[^\n•]` of the labeled-value patterns. -/
def valueChar (c : Char) : Bool := !(c = '\n' || c = '•')

def valPlus : RE := .seq (.pred valueChar) (.star (.pred valueChar))

def digitPlus : RE := .seq (.pred Char.isDigit) (.star (.pred Char.isDigit))

/-- Pattern scheme `LABEL\s*([^\n•]+)` shared by the labeled-field searches. -/
def labeledRE (label : List Char) : RE := .seq (.lit label) (.seq wsStar (.grp valPlus))

def countryRE : RE := labeledRE ("Country of origin:".toList)

def texRE : RE := labeledRE ("Texture:".toList)

def typeRE : RE := labeledRE ("Type:".toList)

/-- Pattern `Colou?r:\s*([^\n•]+)`. -/
def colorRE : RE :=
  .seq (.lit ("Colo".toList))
    (.seq (.opt (.pred (fun c => c.toLower = 'u')))
      (.seq (.lit ("r:".toList)) (.seq wsStar (.grp valPlus))))

/-- Pattern `Flavou?r:\s*([^\n•]+)`. -/
def flavorRE : RE :=
  .seq (.lit ("Flavo".toList))
    (.seq (.opt (.pred (fun c => c.toLower = 'u')))
      (.seq (.lit ("r:".toList)) (.seq wsStar (.grp valPlus))))

/-- Pattern `Rind:\s*(\w+)`. -/
def rindRE : RE := .seq (.lit ("Rind:".toList)) (.seq wsStar (.grp wordPlus))

/-- Pattern `aged?\s+for\s+\d+`. -/
def agedRE : RE :=
  .seq (.lit ("age".toList))
    (.seq (.opt (.pred (fun c => c.toLower = 'd')))
      (.seq wsPlus (.seq (.lit ("for".toList)) (.seq wsPlus digitPlus))))

/-- Pattern `fresh|unaged`. -/
def freshRE : RE := .alt (.lit ("fresh".toList)) (.lit ("unaged".toList))

/-- One modifier alternative `word\s+` of the milk patterns. -/
def modWord (w : List Char) : RE := .seq (.lit w) wsPlus

/-- Modifier alternation `(?:pasteurized\s+|raw\s+|unpasteurized\s+|organic\s+|fresh\s+)`. -/
def modAlt : RE :=
  .alt (modWord ("pasteurized".toList))
    (.alt (modWord ("raw".toList))
      (.alt (modWord ("unpasteurized".toList))
        (.alt (modWord ("organic".toList)) (modWord ("fresh".toList)))))

/-- Two-character literal: apostrophe followed by the letter s. -/
def aposS : List Char := [apos, 's']

/-- Common tail of milk patterns 1 and 2: captured word, optional whitespace, an optional apostrophe-s (two identical alternatives in the source) or bare s, whitespace, then the word milk. -/
def milkTail : RE :=
  .seq (.grp wordPlus)
    (.seq wsStar
      (.seq (.opt (.alt (.lit aposS) (.alt (.lit aposS) (.lit (['s'])))))
        (.seq wsPlus (.lit ("milk".toList)))))

/-- Milk pattern 1: the literal Made from, whitespace, any number of modifiers, then the common tail. -/
def milkP1 : RE := .seq (.lit ("Made from".toList)) (.seq wsPlus (.seq (.star modAlt) milkTail))

/-- Milk pattern 2: one of from, using or with, whitespace, any number of modifiers, then the common tail. -/
def milkP2 : RE :=
  .seq (.alt (.lit ("from".toList)) (.alt (.lit ("using".toList)) (.lit ("with".toList))))
    (.seq wsPlus (.seq (.star modAlt) milkTail))

/-- Milk pattern 3: a negative lookbehind rejecting a preceding by, the captured word, optional whitespace, a mandatory apostrophe-s (two identical alternatives in the source), whitespace, then the word milk. -/
def milkP3 : RE :=
  .seq (.nlb [fun c => c.toLower = 'b', fun c => c.toLower = 'y', pyIsSpace])
    (.seq (.grp wordPlus)
      (.seq wsStar
        (.seq (.alt (.lit aposS) (.lit aposS)) (.seq wsPlus (.lit ("milk".toList))))))

def milkPatterns : List RE := [milkP1, milkP2, milkP3]

/-! ### The record and the inference cascade -/

/-- Record of the scraper, the field `data` of `CheeseParser`. -/
structure CheeseData where
  name : List Char
  country : List Char
  milk : List Char
  texture : List Char
  color : List Char
  aged : List Char
  rind : List Char
  flavor : List Char
  image : List Char
  description : List Char
  url : List Char
deriving Repr, DecidableEq

/-- The initial record built in `CheeseParser.__init__`. -/
def initData (url : List Char) : CheeseData :=
  ⟨[], [], [], [], [], ("Unknown".toList), ("Natural".toList), ("Mild".toList), [], [], url⟩

/-- The stop-word list guarding the milk patterns. -/
def stopWords : List (List Char) :=
  [("by".toList), ("the".toList), ("a".toList), ("an".toList), ("this".toList),
   ("that".toList), ("made".toList), ("from".toList), ("with".toList)]

/-- Canonicalization of an accepted (already lowercased) milk token. -/
def canonMilk (mt : List Char) : List Char :=
  if listSub ("cow".toList) mt then ("Cow".toList)
  else if listSub ("goat".toList) mt then ("Goat".toList)
  else if listSub ("sheep".toList) mt || listSub ("ewe".toList) mt then ("Sheep".toList)
  else if listSub ("buffalo".toList) mt || listSub ("water".toList) mt then ("Buffalo".toList)
  else pyTitle mt

/-- The `for pattern in milk_patterns` loop: first pattern whose captured
token is not a stop-word wins; a stop-word capture or a failed search moves
on to the next pattern. -/
def milkLoop (t : List Char) : List RE → Option (List Char)
  | [] => none
  | p :: ps =>
    match reGroup1 p t with
    | none => milkLoop t ps
    | some tok =>
      if stopWords.contains (pyLower tok) then milkLoop t ps else some (canonMilk (pyLower tok))

def stepCountry (t : List Char) (d : CheeseData) : CheeseData :=
  match reGroup1 countryRE t with
  | some v => { d with country := cleanText v }
  | none => d

def stepMilk (t : List Char) (d : CheeseData) : CheeseData :=
  match milkLoop t milkPatterns with
  | some v => { d with milk := v }
  | none => d

/-- The `Texture:` branch body.  The final fallback mirrors
`self._clean_text(texture_text).split()[0].title()`, whose indexing raises
`IndexError` when the cleaned value has no words; that raise is modelled as
`none`. -/
def texFromLabel (v : List Char) (d : CheeseData) : Option CheeseData :=
  let tt := pyLower v
  if listSub ("crumbly".toList) tt then some { d with texture := ("Crumbly".toList) }
  else if listSub ("firm".toList) tt then some { d with texture := ("Firm".toList) }
  else if listSub ("soft".toList) tt then some { d with texture := ("Soft".toList) }
  else if listSub ("hard".toList) tt then some { d with texture := ("Hard".toList) }
  else if listSub ("creamy".toList) tt then some { d with texture := ("Creamy".toList) }
  else
    match splitWsGo [] (cleanText tt) with
    | [] => none
    | w :: _ => some { d with texture := pyTitle w }

/-- Classification of the `Type:` fallback value (already lowercased). -/
def classifyType (tt : List Char) : Option (List Char) :=
  if listSub ("hard".toList) tt then some ("Hard".toList)
  else if listSub ("semi-hard".toList) tt then some ("Semi-hard".toList)
  else if listSub ("semi-soft".toList) tt then some ("Semi-soft".toList)
  else if listSub ("soft".toList) tt then some ("Soft".toList)
  else none

def stepTexture (t : List Char) (d : CheeseData) : Option CheeseData :=
  match (match reGroup1 texRE t with
         | some v => texFromLabel v d
         | none => some d) with
  | none => none
  | some d2 =>
    if d2.texture = [] then
      match reGroup1 typeRE t with
      | some v =>
        match classifyType (pyLower v) with
        | some x => some { d2 with texture := x }
        | none => some d2
      | none => some d2
    else some d2

def stepColor (t : List Char) (d : CheeseData) : CheeseData :=
  match reGroup1 colorRE t with
  | some v => { d with color := pyTitle (cleanText v) }
  | none =>
    if listSub ("blue".toList) (pyLower t) && listSub ("vein".toList) (pyLower t) then
      { d with color := ("Blue-Veined".toList) }
    else { d with color := ("Yellow".toList) }

def stepAged (t : List Char) (d : CheeseData) : CheeseData :=
  let tl := pyLower d.texture
  let d1 :=
    if tl = ("hard".toList) || tl = ("semi-hard".toList) || tl = ("firm".toList) then
      { d with aged := ("Yes".toList) }
    else if tl = ("soft".toList) || tl = ("creamy".toList) || tl = ("fresh".toList) then
      { d with aged := ("No".toList) }
    else d
  let d2 := if (reSearch agedRE t).isSome then { d1 with aged := ("Yes".toList) } else d1
  if (reSearch freshRE t).isSome then { d2 with aged := ("No".toList) } else d2

def stepRind (t : List Char) (d : CheeseData) : CheeseData :=
  match reGroup1 rindRE t with
  | some v => { d with rind := pyTitle (cleanText v) }
  | none =>
    if listSub ("bloomy".toList) (pyLower t) then { d with rind := ("Bloomy".toList) }
    else if listSub ("washed".toList) (pyLower t) && listSub ("rind".toList) (pyLower t) then
      { d with rind := ("Washed".toList) }
    else d

def stepFlavor (t : List Char) (d : CheeseData) : CheeseData :=
  match reGroup1 flavorRE t with
  | some v =>
    let ft := cleanText v
    { d with flavor := pyTitle (pyStrip (takeUntilLit ([',']) (takeUntilLit ("and".toList) ft))) }
  | none =>
    if listSub ("sharp".toList) (pyLower t) then { d with flavor := ("Sharp".toList) }
    else if listSub ("strong".toList) (pyLower t) then { d with flavor := ("Strong".toList) }
    else d

/-- The description loop: first paragraph whose cleaned length exceeds 50,
truncated to 200 characters plus ellipsis when longer than 200. -/
def descLoop : List (List Char) → Option (List Char)
  | [] => none
  | p :: ps =>
    let c := cleanText p
    if 50 < c.length then
      some (if 200 < c.length then c.take 200 ++ ("...".toList) else c)
    else descLoop ps

def stepDescription (paras : List (List Char)) (d : CheeseData) : CheeseData :=
  if paras.isEmpty then d
  else
    match descLoop paras with
    | some v => { d with description := v }
    | none => d

/-- Model of `CheeseParser.extract_data`, as a function of the flattened text, the
collected description paragraphs, and the record accumulated so far.  The
result is `none` exactly when the source would raise (the `Texture:` first
word fallback on a wordless value). -/
def extract_data (t : List Char) (paras : List (List Char)) (d : CheeseData) :
    Option CheeseData :=
  match stepTexture t (stepMilk t (stepCountry t d)) with
  | none => none
  | some d3 =>
    some (stepDescription paras (stepFlavor t (stepRind t (stepAged t (stepColor t d3)))))

/-! ### The event-driven parser -/

/-- Tokenizer events fed to the `HTMLParser` callbacks. -/
inductive HEvent where
  | tagOpen (tag : List Char) (attrs : List (List Char × List Char))
  | tagClose (tag : List Char)
  | text (txt : List Char)

/-- Python `dict(attrs).get(key)`: the last binding of a key wins. -/
def lookupAttr (attrs : List (List Char × List Char)) (key : List Char) :
    Option (List Char) :=
  match attrs with
  | [] => none
  | (k, v) :: rest =>
    match lookupAttr rest key with
    | some r => some r
    | none => if k = key then some v else none

/-- Append a text chunk to the last paragraph accumulator, as the source does with the Python index -1 update. -/
def appendToLast : List (List Char) → List Char → List (List Char)
  | [], _ => []
  | [p], txt => [p ++ txt]
  | p :: ps, txt => p :: appendToLast ps txt

/-- The mutable state of `CheeseParser`. -/
structure PState where
  dat : CheeseData
  in_h1 : Bool
  in_description : Bool
  description_paragraphs : List (List Char)
  text_content : List (List Char)
deriving Repr, DecidableEq

def initPState (url : List Char) : PState :=
  ⟨initData url, false, false, [], []⟩

def handle_starttag (tag : List Char) (attrs : List (List Char × List Char))
    (s : PState) : PState :=
  let s1 := if tag = ("h1".toList) then { s with in_h1 := true } else s
  let s2 :=
    if tag = ("img".toList) && s1.dat.image = [] then
      let src := (lookupAttr attrs ("src".toList)).getD []
      if listSub ("/media/img/cheese".toList) src then
        if src.head? = some '/' then
          { s1 with dat := { s1.dat with image := ("https://www.cheese.com".toList) ++ src } }
        else { s1 with dat := { s1.dat with image := src } }
      else s1
    else s1
  let s3 :=
    if tag = ("div".toList) && lookupAttr attrs ("id".toList) = some ("collapse-description".toList)
    then { s2 with in_description := true }
    else s2
  if tag = ("p".toList) && s3.in_description then
    { s3 with description_paragraphs := s3.description_paragraphs ++ [[]] }
  else s3

def handle_endtag (tag : List Char) (s : PState) : PState :=
  let s1 := if tag = ("h1".toList) then { s with in_h1 := false } else s
  if tag = ("div".toList) then { s1 with in_description := false } else s1

def handle_data (txt : List Char) (s : PState) : PState :=
  let s1 := if s.in_h1 then { s with dat := { s.dat with name := pyStrip txt } } else s
  let s2 :=
    if s1.in_description && !s1.description_paragraphs.isEmpty then
      { s1 with description_paragraphs := appendToLast s1.description_paragraphs txt }
    else s1
  { s2 with text_content := s2.text_content ++ [txt] }

def handleEvent (s : PState) (e : HEvent) : PState :=
  match e with
  | .tagOpen tag attrs => handle_starttag tag attrs s
  | .tagClose tag => handle_endtag tag s
  | .text txt => handle_data txt s

/-- Feed a whole event stream to a fresh parser. -/
def runParser (evs : List HEvent) (url : List Char) : PState :=
  evs.foldl handleEvent (initPState url)

/-- The validator at the end of `scrape_cheese`: the record is returned only
when name, country and milk are all non-empty; otherwise `None`. -/
def acceptRecord (d : CheeseData) : Option CheeseData :=
  if !d.name.isEmpty && !d.country.isEmpty && !d.milk.isEmpty then some d else none

/-! ### Field-value normal forms

For each cascade step, the value the step stores in its field, as a function
of the flattened text and the previous contents of the field.  These are proved
equal to the steps below and make the step-composition proofs tractable. -/

def countryVal (t : List Char) (c : List Char) : List Char :=
  match reGroup1 countryRE t with
  | some v => cleanText v
  | none => c

def milkVal (t : List Char) (m : List Char) : List Char :=
  match milkLoop t milkPatterns with
  | some v => v
  | none => m

/-- Texture value produced by the `Texture:` branch from the captured label
value; `none` models the `IndexError` of the first-word fallback. -/
def texLabelVal (v : List Char) : Option (List Char) :=
  let tt := pyLower v
  if listSub ("crumbly".toList) tt then some ("Crumbly".toList)
  else if listSub ("firm".toList) tt then some ("Firm".toList)
  else if listSub ("soft".toList) tt then some ("Soft".toList)
  else if listSub ("hard".toList) tt then some ("Hard".toList)
  else if listSub ("creamy".toList) tt then some ("Creamy".toList)
  else
    match splitWsGo [] (cleanText tt) with
    | [] => none
    | w :: _ => some (pyTitle w)

/-- The `Type:` fallback applied to the texture value after the `Texture:`
branch. -/
def texFallback (t : List Char) (x : List Char) : List Char :=
  if x = [] then
    match reGroup1 typeRE t with
    | some v =>
      match classifyType (pyLower v) with
      | some y => y
      | none => x
    | none => x
  else x

def textureVal (t : List Char) (x : List Char) : Option (List Char) :=
  match (match reGroup1 texRE t with
         | some v => texLabelVal v
         | none => some x) with
  | none => none
  | some x2 => some (texFallback t x2)

def colorVal (t : List Char) : List Char :=
  match reGroup1 colorRE t with
  | some v => pyTitle (cleanText v)
  | none =>
    if listSub ("blue".toList) (pyLower t) && listSub ("vein".toList) (pyLower t) then
      ("Blue-Veined".toList)
    else ("Yellow".toList)

def agedVal (t : List Char) (x : List Char) (a : List Char) : List Char :=
  let tl := pyLower x
  let a1 :=
    if tl = ("hard".toList) || tl = ("semi-hard".toList) || tl = ("firm".toList) then
      ("Yes".toList)
    else if tl = ("soft".toList) || tl = ("creamy".toList) || tl = ("fresh".toList) then
      ("No".toList)
    else a
  let a2 := if (reSearch agedRE t).isSome then ("Yes".toList) else a1
  if (reSearch freshRE t).isSome then ("No".toList) else a2

def rindVal (t : List Char) (r : List Char) : List Char :=
  match reGroup1 rindRE t with
  | some v => pyTitle (cleanText v)
  | none =>
    if listSub ("bloomy".toList) (pyLower t) then ("Bloomy".toList)
    else if listSub ("washed".toList) (pyLower t) && listSub ("rind".toList) (pyLower t) then
      ("Washed".toList)
    else r

def flavorVal (t : List Char) (f : List Char) : List Char :=
  match reGroup1 flavorRE t with
  | some v =>
    pyTitle (pyStrip (takeUntilLit ([',']) (takeUntilLit ("and".toList) (cleanText v))))
  | none =>
    if listSub ("sharp".toList) (pyLower t) then ("Sharp".toList)
    else if listSub ("strong".toList) (pyLower t) then ("Strong".toList)
    else f

def descVal (paras : List (List Char)) (dsc : List Char) : List Char :=
  if paras.isEmpty then dsc
  else
    match descLoop paras with
    | some v => v
    | none => dsc

/-! ### Specification-side recollections of the structural extractor

These are written from the (amended) specification wording, independently of
the `PState` machinery, and proved equal to the behaviour of the parser. -/

/-- The name the parser ends up with: the stripped text of the last text
chunk that occurs while the heading flag is set, if any.  The flag is set by
a heading open tag and cleared by a heading close tag. -/
def lastH1Text (b : Bool) : List HEvent → Option (List Char)
  | [] => none
  | e :: r =>
    match e with
    | .tagOpen tg _ => lastH1Text (if tg = ("h1".toList) then true else b) r
    | .tagClose tg => lastH1Text (if tg = ("h1".toList) then false else b) r
    | .text d =>
      if b then
        match lastH1Text b r with
        | some v => some v
        | none => some (pyStrip d)
      else lastH1Text b r

/-- The description paragraphs the parser collects: a paragraph open tag
while the container flag is set starts a new accumulator; every text chunk
while the flag is set and at least one accumulator exists is appended to the
most recent accumulator; the flag is set by the designated container open tag
and cleared by any `div` close tag. -/
def specParas (b : Bool) (acc : List (List Char)) : List HEvent → List (List Char)
  | [] => acc
  | e :: r =>
    match e with
    | .tagOpen tg attrs =>
      let b2 :=
        if tg = ("div".toList) && lookupAttr attrs ("id".toList) = some ("collapse-description".toList)
        then true else b
      specParas b2 (if tg = ("p".toList) && b2 then acc ++ [[]] else acc) r
    | .tagClose tg => specParas (if tg = ("div".toList) then false else b) acc r
    | .text d => specParas b (if b && !acc.isEmpty then appendToLast acc d else acc) r

/-- A document with two top-level headings, used to test name extraction. -/
def twoHeadingsDoc : List HEvent :=
  [HEvent.tagOpen (("h1").toList) ([]), HEvent.text (("A").toList),
   HEvent.tagClose (("h1").toList), HEvent.tagOpen (("h1").toList) ([]),
   HEvent.text (("B").toList), HEvent.tagClose (("h1").toList)]

/-- A description container with one closed paragraph followed by a loose
text chunk, used to test paragraph collection. -/
def descBleedDoc : List HEvent :=
  [HEvent.tagOpen (("div").toList) ([((("id").toList), (("collapse-description").toList))]),
   HEvent.tagOpen (("p").toList) ([]), HEvent.text (("A").toList),
   HEvent.tagClose (("p").toList), HEvent.text (("X").toList)]

/-! ### Basic lemmas about the string helpers -/

theorem listSub_iff (n h : List Char) : listSub n h = true ↔ n <:+: h := by
  induction h with
  | nil =>
    simp only [listSub, List.isEmpty_iff]
    constructor
    · rintro rfl; exact List.infix_rfl
    · intro hn; exact List.eq_nil_of_infix_nil hn
  | cons c r ih =>
    simp only [listSub, Bool.or_eq_true, List.isPrefixOf_iff_prefix, ih, List.infix_cons_iff]

theorem listSub_trans {a b c : List Char} (h1 : listSub a b = true)
    (h2 : listSub b c = true) : listSub a c = true := by
  rw [listSub_iff] at h1 h2 ⊢
  exact h1.trans h2

/-! ### Step normal forms -/

theorem stepCountry_eq (t : List Char) (d : CheeseData) :
    stepCountry t d = { d with country := countryVal t d.country } := by
  unfold stepCountry countryVal
  split <;> rfl

theorem stepMilk_eq (t : List Char) (d : CheeseData) :
    stepMilk t d = { d with milk := milkVal t d.milk } := by
  unfold stepMilk milkVal
  split <;> rfl

theorem texFromLabel_eq (v : List Char) (d : CheeseData) :
    texFromLabel v d = (texLabelVal v).map (fun x => { d with texture := x }) := by
  unfold texFromLabel texLabelVal
  try dsimp only
  repeat' split
  all_goals rfl

theorem stepTexture_eq (t : List Char) (d : CheeseData) :
    stepTexture t d = (textureVal t d.texture).map (fun x => { d with texture := x }) := by
  unfold stepTexture textureVal
  rcases hg : reGroup1 texRE t with _ | v
  · dsimp only [texFallback, Option.map]
    repeat' split
    all_goals rfl
  · dsimp only
    rw [texFromLabel_eq]
    rcases hl : texLabelVal v with _ | x2
    · rfl
    · dsimp only [texFallback, Option.map]
      repeat' split
      all_goals rfl

theorem stepColor_eq (t : List Char) (d : CheeseData) :
    stepColor t d = { d with color := colorVal t } := by
  unfold stepColor colorVal
  try dsimp only
  repeat' split
  all_goals rfl

theorem stepAged_eq (t : List Char) (d : CheeseData) :
    stepAged t d = { d with aged := agedVal t d.texture d.aged } := by
  unfold stepAged agedVal
  try dsimp only
  repeat' split
  all_goals rfl

theorem stepRind_eq (t : List Char) (d : CheeseData) :
    stepRind t d = { d with rind := rindVal t d.rind } := by
  unfold stepRind rindVal
  try dsimp only
  repeat' split
  all_goals rfl

theorem stepFlavor_eq (t : List Char) (d : CheeseData) :
    stepFlavor t d = { d with flavor := flavorVal t d.flavor } := by
  unfold stepFlavor flavorVal
  try dsimp only
  repeat' split
  all_goals rfl

theorem stepDescription_eq (paras : List (List Char)) (d : CheeseData) :
    stepDescription paras d = { d with description := descVal paras d.description } := by
  unfold stepDescription descVal
  try dsimp only
  repeat' split
  all_goals rfl

/-- Normal form of the whole inference cascade: each field is a function of
the flattened text, its own previous value, and (for the aging status) the
texture value the cascade just computed. -/
theorem extract_data_eq (t : List Char) (paras : List (List Char)) (d : CheeseData) :
    extract_data t paras d =
      match textureVal t d.texture with
      | none => none
      | some x =>
        some { name := d.name, country := countryVal t d.country, milk := milkVal t d.milk,
               texture := x, color := colorVal t, aged := agedVal t x d.aged,
               rind := rindVal t d.rind, flavor := flavorVal t d.flavor,
               image := d.image, description := descVal paras d.description, url := d.url } := by
  unfold extract_data
  simp only [stepCountry_eq, stepMilk_eq, stepTexture_eq]
  rcases htv : textureVal t d.texture with _ | x
  · rfl
  · simp only [stepColor_eq, stepAged_eq, stepRind_eq, stepFlavor_eq, stepDescription_eq]
    rfl

/-! ### Stability of the field-value functions -/

theorem countryVal_stable (t c : List Char) :
    countryVal t (countryVal t c) = countryVal t c := by
  unfold countryVal
  cases reGroup1 countryRE t <;> rfl

theorem milkVal_stable (t m : List Char) : milkVal t (milkVal t m) = milkVal t m := by
  unfold milkVal
  cases milkLoop t milkPatterns <;> rfl

theorem classifyType_ne_nil (s y : List Char) (h : classifyType s = some y) : y ≠ [] := by
  intro hy
  subst hy
  unfold classifyType at h
  repeat' split at h
  all_goals exact absurd h (by decide)

theorem texFallback_stable (t x : List Char) :
    texFallback t (texFallback t x) = texFallback t x := by
  by_cases hx : x = []
  · subst hx
    rcases hty : reGroup1 typeRE t with _ | v
    · simp [texFallback, hty]
    · rcases hc : classifyType (pyLower v) with _ | y
      · simp [texFallback, hty, hc]
      · have hy := classifyType_ne_nil _ _ hc
        simp [texFallback, hty, hc, hy]
  · simp [texFallback, hx]

theorem textureVal_stable (t x0 x : List Char) (h : textureVal t x0 = some x) :
    textureVal t x = some x := by
  unfold textureVal at h ⊢
  rcases hg : reGroup1 texRE t with _ | v
  · rw [hg] at h
    try dsimp only at h ⊢
    injection h with h2
    rw [← h2, texFallback_stable]
  · rw [hg] at h
    try dsimp only at h ⊢
    rcases hl : texLabelVal v with _ | x2
    · rw [hl] at h
      try dsimp only at h
      exact Option.noConfusion h
    · rw [hl] at h
      try dsimp only at h ⊢
      exact h

theorem agedVal_stable (t x a : List Char) :
    agedVal t x (agedVal t x a) = agedVal t x a := by
  unfold agedVal
  dsimp only
  repeat' split
  all_goals rfl

theorem rindVal_stable (t r : List Char) : rindVal t (rindVal t r) = rindVal t r := by
  unfold rindVal
  repeat' split
  all_goals first | rfl | simp_all

theorem flavorVal_stable (t f : List Char) :
    flavorVal t (flavorVal t f) = flavorVal t f := by
  unfold flavorVal
  repeat' split
  all_goals first | rfl | simp_all

theorem descVal_stable (paras : List (List Char)) (dsc : List Char) :
    descVal paras (descVal paras dsc) = descVal paras dsc := by
  unfold descVal
  repeat' split
  all_goals first | rfl | simp_all

/-- C9: the inference cascade is idempotent: re-running `extract_data` on the
same flattened text and paragraph list, starting from the record the first
run produced, returns that record unchanged. -/
theorem spec_c9_idempotent (t : List Char) (paras : List (List Char)) (d d' : CheeseData)
    (h : extract_data t paras d = some d') : extract_data t paras d' = some d' := by
  rw [extract_data_eq] at h
  rcases htv : textureVal t d.texture with _ | x
  · rw [htv] at h; exact absurd h (by simp)
  · rw [htv] at h
    injection h with h2
    subst h2
    rw [extract_data_eq]
    dsimp only
    rw [textureVal_stable t d.texture x htv]
    dsimp only
    rw [countryVal_stable, milkVal_stable, agedVal_stable, rindVal_stable, flavorVal_stable,
      descVal_stable]

/-- Witness for C9 at a concrete document. -/
theorem spec_c9_witness :
    extract_data (("Texture: Soft").toList) []
      ⟨[], [], [], ("Soft".toList), ("Yellow".toList), ("No".toList),
       ("Natural".toList), ("Mild".toList), [], [], []⟩ =
      some ⟨[], [], [], ("Soft".toList), ("Yellow".toList), ("No".toList),
            ("Natural".toList), ("Mild".toList), [], [], []⟩ :=
  spec_c9_idempotent (("Texture: Soft").toList) [] (initData [])
    ⟨[], [], [], ("Soft".toList), ("Yellow".toList), ("No".toList),
     ("Natural".toList), ("Mild".toList), [], [], []⟩ (by decide)

/-! ### Engine lemmas: soundness and completeness of label searches -/

theorem consumeCI_append (l s : List Char) : consumeCI l (l ++ s) = some s := by
  induction l with
  | nil => rfl
  | cons c ls ih => simp [consumeCI, ih]

theorem consumeCI_sound (l : List Char) :
    ∀ s r : List Char, consumeCI l s = some r →
      ∃ p, s = p ++ r ∧ pyLower p = pyLower l := by
  induction l with
  | nil =>
    intro s r h
    injection h with h2
    exact ⟨[], by simp [h2], rfl⟩
  | cons c ls ih =>
    intro s r h
    cases s with
    | nil => exact Option.noConfusion h
    | cons c2 s2 =>
      unfold consumeCI at h
      split at h
      · rename_i hcc
        obtain ⟨p, hp, hlow⟩ := ih s2 r h
        refine ⟨c2 :: p, by simp [hp], ?_⟩
        simp only [pyLower, List.map_cons] at hlow ⊢
        rw [hlow, hcc]
      · exact Option.noConfusion h

theorem reMatch_seq_lit_isSome (fuel : Nat) (lbl : List Char) (tail : RE) (m : MState)
    (k : MState → Option MState) (h : (reMatch fuel (.seq (.lit lbl) tail) m k).isSome = true) :
    ∃ r, consumeCI lbl m.rest = some r := by
  match fuel with
  | 0 => exact absurd h (by simp [reMatch])
  | f + 1 =>
    match f with
    | 0 => exact absurd h (by simp [reMatch])
    | f2 + 1 =>
      simp only [reMatch] at h
      rcases hc : consumeCI lbl m.rest with _ | r
      · rw [hc] at h
        exact absurd h (by simp)
      · exact ⟨r, rfl⟩

theorem searchFrom_sound_label (lbl : List Char) (tail : RE) :
    ∀ (s left : List Char) (m : MState),
      searchFrom (.seq (.lit lbl) tail) left s = some m →
      listSub (pyLower lbl) (pyLower s) = true := by
  intro s
  induction s with
  | nil =>
    intro left m h
    unfold searchFrom at h
    rcases hm : reMatch (fuelFor []) (.seq (.lit lbl) tail) ⟨left, [], none⟩ some with _ | m2
    · rw [hm] at h
      exact Option.noConfusion h
    · obtain ⟨r, hr⟩ := reMatch_seq_lit_isSome _ _ _ _ _ (by rw [hm]; rfl)
      obtain ⟨p, hp, hlow⟩ := consumeCI_sound lbl _ r hr
      rw [listSub_iff, ← hlow]
      have hpfx : p <+: ([] : List Char) := ⟨r, hp.symm⟩
      exact ((hpfx.map Char.toLower).isInfix : pyLower p <:+: pyLower [])
  | cons c s2 ih =>
    intro left m h
    unfold searchFrom at h
    rcases hm : reMatch (fuelFor (c :: s2)) (.seq (.lit lbl) tail) ⟨left, c :: s2, none⟩ some
      with _ | m2
    · rw [hm] at h
      have h2 : searchFrom (.seq (.lit lbl) tail) (c :: left) s2 = some m := h
      have := ih (c :: left) m h2
      rw [listSub_iff] at this ⊢
      simp only [pyLower, List.map_cons]
      exact this.trans (List.suffix_cons (Char.toLower c) (List.map Char.toLower s2)).isInfix
    · rw [hm] at h
      obtain ⟨r, hr⟩ := reMatch_seq_lit_isSome _ _ _ _ _ (by rw [hm]; rfl)
      obtain ⟨p, hp, hlow⟩ := consumeCI_sound lbl _ r hr
      rw [listSub_iff, ← hlow]
      have hpfx : p <+: (c :: s2) := ⟨r, hp.symm⟩
      exact (hpfx.map Char.toLower).isInfix

theorem reGroup1_eq_none_of_no_label (lbl : List Char) (tail : RE) (t : List Char)
    (h : listSub (pyLower lbl) (pyLower t) = false) :
    reGroup1 (.seq (.lit lbl) tail) t = none := by
  unfold reGroup1 reSearch
  rcases hs : searchFrom (.seq (.lit lbl) tail) [] t with _ | m
  · rfl
  · exact absurd (searchFrom_sound_label lbl tail t [] m hs) (by simp [h])

theorem searchFrom_isSome (re : RE) (p : List Char) (q : List Char) :
    ∀ left : List Char,
      (∀ l' : List Char, (reMatch (fuelFor q) re ⟨l', q, none⟩ some).isSome = true) →
      (searchFrom re left (p ++ q)).isSome = true := by
  induction p with
  | nil =>
    intro left H
    rw [List.nil_append]
    have hq := H left
    cases q with
    | nil =>
      unfold searchFrom
      rcases hm : reMatch (fuelFor []) re ⟨left, [], none⟩ some with _ | m2
      · rw [hm] at hq; exact absurd hq (by simp)
      · simp [hm]
    | cons c r =>
      unfold searchFrom
      rcases hm : reMatch (fuelFor (c :: r)) re ⟨left, c :: r, none⟩ some with _ | m2
      · rw [hm] at hq; exact absurd hq (by simp)
      · simp [hm]
  | cons c p2 ih =>
    intro left H
    show (searchFrom re left (c :: (p2 ++ q))).isSome = true
    unfold searchFrom
    rcases hm : reMatch (fuelFor (c :: (p2 ++ q))) re ⟨left, c :: (p2 ++ q), none⟩ some with _ | m2
    · simp only [hm]
      exact ih (c :: left) H
    · simp [hm]

theorem freshRE_match_isSome (f : Nat) (q l' : List Char) (hf : 2 ≤ f) :
    (reMatch f freshRE ⟨l', ("fresh").toList ++ q, none⟩ some).isSome = true := by
  obtain ⟨f2, rfl⟩ : ∃ f2, f = f2 + 2 := ⟨f - 2, by omega⟩
  simp [freshRE, reMatch, consumeCI]

theorem freshRE_search_isSome (t : List Char) (h : listSub (("fresh").toList) t = true) :
    (reSearch freshRE t).isSome = true := by
  rw [listSub_iff] at h
  obtain ⟨p, q, hpq⟩ := h
  subst hpq
  unfold reSearch
  rw [List.append_assoc]
  exact searchFrom_isSome freshRE p (("fresh").toList ++ q) []
    (fun l2 => freshRE_match_isSome _ q l2 (by unfold fuelFor; omega))

/-! ### Lemmas about the aging-status value -/

theorem agedVal_fresh (t x a : List Char) (h : (reSearch freshRE t).isSome = true) :
    agedVal t x a = ("No").toList := by
  unfold agedVal
  simp [h]

theorem agedVal_agedFor (t x a : List Char) (h : (reSearch agedRE t).isSome = true)
    (h2 : reSearch freshRE t = none) : agedVal t x a = ("Yes").toList := by
  unfold agedVal
  simp [h, h2]

/-- C1: on a document whose `Texture:` label is followed by a value that is
all whitespace, the cascade raises (`IndexError` on `.split()[0]`), modelled
here as `extract_data` returning `none` instead of a completed record. -/
theorem spec_c1_texture_whitespace_raises :
    extract_data (("Texture:  \n").toList) [] (initData []) = none := by decide

/-- C2: the aging status respects the override order.  Part 1: any document
containing both an explicit "aged for 6 months" phrase and the word "fresh"
ends with agingStatus No, because the fresh/unaged override runs last.
Part 2: a document matching neither the aged-for nor the fresh/unaged
pattern and containing no (case-insensitive) `Texture:` or `Type:` label
keeps the default Unknown aging status and an empty texture.  Part 3: the
aged-for override alone forces Yes. -/
theorem spec_c2_aging_order :
    (∀ (t : List Char) (paras : List (List Char)) (d d' : CheeseData),
        extract_data t paras d = some d' →
        listSub (("aged for 6 months").toList) t = true →
        listSub (("fresh").toList) t = true →
        d'.aged = ("No").toList) ∧
    (∀ (t url : List Char) (paras : List (List Char)) (d' : CheeseData),
        listSub (("texture:").toList) (pyLower t) = false →
        listSub (("type:").toList) (pyLower t) = false →
        reSearch agedRE t = none →
        reSearch freshRE t = none →
        extract_data t paras (initData url) = some d' →
        d'.texture = [] ∧ d'.aged = ("Unknown").toList) ∧
    (∀ (t x a : List Char), (reSearch agedRE t).isSome = true →
        reSearch freshRE t = none → agedVal t x a = ("Yes").toList) := by
  refine ⟨?_, ?_, ?_⟩
  · intro t paras d d' h _ hfresh
    rw [extract_data_eq] at h
    rcases htv : textureVal t d.texture with _ | x
    · rw [htv] at h
      exact Option.noConfusion h
    · rw [htv] at h
      injection h with h2
      subst h2
      exact agedVal_fresh t x d.aged (freshRE_search_isSome t hfresh)
  · intro t url paras d' hTex hType hAged hFresh h
    have hTexNone : reGroup1 texRE t = none := by
      have hx : listSub (pyLower (("Texture:").toList)) (pyLower t) = false := by
        rw [show pyLower (("Texture:").toList) = ("texture:").toList from by decide]
        exact hTex
      exact reGroup1_eq_none_of_no_label (("Texture:").toList) (.seq wsStar (.grp valPlus)) t hx
    have hTypeNone : reGroup1 typeRE t = none := by
      have hx : listSub (pyLower (("Type:").toList)) (pyLower t) = false := by
        rw [show pyLower (("Type:").toList) = ("type:").toList from by decide]
        exact hType
      exact reGroup1_eq_none_of_no_label (("Type:").toList) (.seq wsStar (.grp valPlus)) t hx
    rw [extract_data_eq] at h
    have htv : textureVal t (initData url).texture = some [] := by
      unfold textureVal
      rw [hTexNone]
      simp [texFallback, hTypeNone, initData]
    rw [htv] at h
    injection h with h2
    subst h2
    refine ⟨rfl, ?_⟩
    show agedVal t [] (initData url).aged = ("Unknown").toList
    have ha : (initData url).aged = ("Unknown").toList := rfl
    rw [ha]
    unfold agedVal
    rw [hAged, hFresh]
    decide
  · intro t x a h h2
    exact agedVal_agedFor t x a h h2

/-- Witness for C2 at concrete documents. -/
theorem spec_c2_witness :
    (CheeseData.aged ⟨[], [], [], [], ("Yellow").toList, ("No").toList, ("Natural").toList,
        ("Mild").toList, [], [], []⟩) = ("No").toList ∧
    CheeseData.texture ⟨[], [], [], [], ("Yellow").toList, ("Unknown").toList,
        ("Natural").toList, ("Mild").toList, [], [], []⟩ = [] :=
  ⟨spec_c2_aging_order.1 (("aged for 6 months fresh").toList) [] (initData [])
      ⟨[], [], [], [], ("Yellow").toList, ("No").toList, ("Natural").toList,
       ("Mild").toList, [], [], []⟩ (by decide) (by decide) (by decide),
    (spec_c2_aging_order.2.1 (("no labels here at all").toList) [] []
      ⟨[], [], [], [], ("Yellow").toList, ("Unknown").toList, ("Natural").toList,
       ("Mild").toList, [], [], []⟩ (by decide) (by decide) (by decide) (by decide)
      (by decide)).1.symm ▸ rfl⟩

/-- C10: the `Type:` fallback can never produce the texture `Semi-hard`: any
value containing "semi-hard" also contains "hard", which the cascade tests
first. -/
theorem spec_c10_semihard_unreachable (s : List Char) :
    (listSub (("semi-hard").toList) s = true → classifyType s = some (("Hard").toList)) ∧
    classifyType s ≠ some (("Semi-hard").toList) := by
  constructor
  · intro hs
    have hh : listSub (("hard").toList) s = true := listSub_trans (by decide) hs
    unfold classifyType
    rw [if_pos hh]
  · intro hcontra
    by_cases hh : listSub (("hard").toList) s = true
    · unfold classifyType at hcontra
      rw [if_pos hh] at hcontra
      exact absurd (Option.some.inj hcontra) (by decide)
    · rcases hs2 : listSub (("semi-hard").toList) s with _ | _
      · unfold classifyType at hcontra
        rw [if_neg hh, if_neg (by simp only [Bool.not_eq_true]; exact hs2)] at hcontra
        repeat' split at hcontra
        all_goals first
          | exact Option.noConfusion hcontra
          | exact absurd (Option.some.inj hcontra) (by decide)
      · exact hh (listSub_trans (by decide) hs2)

/-- Witness for C10 at a concrete `Type:` value. -/
theorem spec_c10_witness :
    classifyType (("semi-hard cheese").toList) = some (("Hard").toList) :=
  (spec_c10_semihard_unreachable (("semi-hard cheese").toList)).1 (by decide)

/-- C8: the validator accepts a record iff name, origin and ingredient are
all non-empty strings, signalling rejection as `none` rather than raising;
the Brie record with empty origin is rejected and accepted once origin
France is added. -/
theorem spec_c8_validator :
    (∀ d : CheeseData, (acceptRecord d).isSome = true ↔
        (d.name ≠ [] ∧ d.country ≠ [] ∧ d.milk ≠ [])) ∧
    acceptRecord ⟨("Brie").toList, [], ("Cow").toList, [], [], ("Unknown").toList,
        ("Natural").toList, ("Mild").toList, [], [], []⟩ = none ∧
    acceptRecord ⟨("Brie").toList, ("France").toList, ("Cow").toList, [], [],
        ("Unknown").toList, ("Natural").toList, ("Mild").toList, [], [], []⟩ =
      some ⟨("Brie").toList, ("France").toList, ("Cow").toList, [], [],
        ("Unknown").toList, ("Natural").toList, ("Mild").toList, [], [], []⟩ := by
  refine ⟨?_, by decide, by decide⟩
  intro d
  unfold acceptRecord
  split
  · simp_all [List.isEmpty_iff]
  · simp_all [List.isEmpty_iff]

/-- Witness for C8 at the accepted Brie record. -/
theorem spec_c8_witness :
    (acceptRecord ⟨("Brie").toList, ("France").toList, ("Cow").toList, [], [],
        ("Unknown").toList, ("Natural").toList, ("Mild").toList, [], [], []⟩).isSome = true ↔
      ((⟨("Brie").toList, ("France").toList, ("Cow").toList, [], [], ("Unknown").toList,
          ("Natural").toList, ("Mild").toList, [], [], []⟩ : CheeseData).name ≠ [] ∧
       (⟨("Brie").toList, ("France").toList, ("Cow").toList, [], [], ("Unknown").toList,
          ("Natural").toList, ("Mild").toList, [], [], []⟩ : CheeseData).country ≠ [] ∧
       (⟨("Brie").toList, ("France").toList, ("Cow").toList, [], [], ("Unknown").toList,
          ("Natural").toList, ("Mild").toList, [], [], []⟩ : CheeseData).milk ≠ []) :=
  spec_c8_validator.1 _

/-- C3: the ingredient cascade.  Pattern 1 on the text Made from pasteurized
cow(apostrophe)s milk captures cow, canonicalized Cow; made with goat milk
goes through pattern 2 to Goat; on Made from this milk and goat(apostrophe)s
milk, pattern 1 captures the stop-word this, which sends the engine on to
the next patterns rather than giving up, and pattern 3 then yields Goat;
produced by hand with milk elsewhere matches no pattern; ewe/sheep and
buffalo canonicalize by substring; an unknown animal is title-cased
verbatim; and the milk value reaches the ingredient field of the record. -/
theorem spec_c3_milk_patterns :
    milkLoop (("Made from pasteurized cow").toList ++ [apos] ++ ("s milk").toList) milkPatterns
      = some (("Cow").toList) ∧
    milkLoop (("Cheese made with goat milk").toList) milkPatterns = some (("Goat").toList) ∧
    milkLoop (("Made from this milk and goat").toList ++ [apos] ++ ("s milk").toList)
      milkPatterns = some (("Goat").toList) ∧
    reGroup1 milkP1 (("Made from this milk and goat").toList ++ [apos] ++ ("s milk").toList)
      = some (("this").toList) ∧
    milkLoop (("produced by hand. There is milk here.").toList) milkPatterns = none ∧
    milkLoop (("Made from sheep").toList ++ [apos] ++ ("s milk").toList) milkPatterns
      = some (("Sheep").toList) ∧
    milkLoop (("Made from water buffalo").toList ++ [apos] ++ ("s milk").toList) milkPatterns
      = some (("Buffalo").toList) ∧
    milkLoop (("Made from yak milk").toList) milkPatterns = some (("Yak").toList) ∧
    (extract_data (("Made from pasteurized cow").toList ++ [apos] ++ ("s milk").toList) []
        (initData [])).map CheeseData.milk = some (("Cow").toList) := by
  refine ⟨by decide, by decide, by decide, by decide, by decide, by decide, by decide,
    by decide, by decide⟩

/-! ### The description loop -/

theorem descLoop_of_find (paras : List (List Char)) (p : List Char)
    (h : paras.find? (fun q => 50 < (cleanText q).length) = some p) :
    descLoop paras =
      some (if 200 < (cleanText p).length then (cleanText p).take 200 ++ ("...").toList
            else cleanText p) := by
  induction paras with
  | nil => exact Option.noConfusion h
  | cons q rest ih =>
    by_cases hq : 50 < (cleanText q).length
    · rw [List.find?_cons_of_pos _ (by simpa using hq)] at h
      injection h with h2
      subst h2
      unfold descLoop
      rw [if_pos hq]
    · rw [List.find?_cons_of_neg _ (by simpa using hq)] at h
      unfold descLoop
      rw [if_neg hq]
      exact ih h

/-- C5: the description is the first collected paragraph whose cleaned
length exceeds 50; it is truncated to its first 200 characters plus an
ellipsis when longer than 200 and kept verbatim otherwise; in particular a
201-character paragraph is truncated and a 200-character one is not. -/
theorem spec_c5_description :
    (∀ (t : List Char) (paras : List (List Char)) (d d' : CheeseData) (p : List Char),
        extract_data t paras d = some d' →
        paras.find? (fun q => 50 < (cleanText q).length) = some p →
        d'.description =
          if 200 < (cleanText p).length then (cleanText p).take 200 ++ ("...").toList
          else cleanText p) ∧
    (extract_data [] [List.replicate 201 'a'] (initData [])).map CheeseData.description
      = some (List.replicate 200 'a' ++ ("...").toList) ∧
    (extract_data [] [List.replicate 200 'b'] (initData [])).map CheeseData.description
      = some (List.replicate 200 'b') := by
  refine ⟨?_, by decide, by decide⟩
  intro t paras d d' p h hf
  rw [extract_data_eq] at h
  rcases htv : textureVal t d.texture with _ | x
  · rw [htv] at h
    exact Option.noConfusion h
  · rw [htv] at h
    injection h with h2
    subst h2
    show descVal paras d.description = _
    cases paras with
    | nil => exact Option.noConfusion hf
    | cons a as =>
      unfold descVal
      rw [descLoop_of_find (a :: as) p hf]
      rfl

/-- Witness for C5: the general description law applied to the concrete
201-character paragraph. -/
theorem spec_c5_witness :
    CheeseData.description
        ⟨[], [], [], [], ("Yellow").toList, ("Unknown").toList, ("Natural").toList,
         ("Mild").toList, [], List.replicate 200 'a' ++ ("...").toList, []⟩ =
      if 200 < (cleanText (List.replicate 201 'a')).length
      then (cleanText (List.replicate 201 'a')).take 200 ++ ("...").toList
      else cleanText (List.replicate 201 'a') :=
  spec_c5_description.1 [] [List.replicate 201 'a'] (initData [])
    ⟨[], [], [], [], ("Yellow").toList, ("Unknown").toList, ("Natural").toList,
     ("Mild").toList, [], List.replicate 200 'a' ++ ("...").toList, []⟩
    (List.replicate 201 'a') (by decide) (by decide)

/-! ### Label-boundary cleaning -/

theorem splitLabelsGo_front (s : List Char) : splitLabelsGo s <+: s := by
  induction s with
  | nil => exact List.prefix_rfl
  | cons c r ih =>
    unfold splitLabelsGo
    split
    · exact List.nil_prefix
    · obtain ⟨t, ht⟩ := ih
      exact ⟨t, by simp [ht]⟩

theorem labelStrings_ne_nil (l : List Char) (hmem : l ∈ labelStrings) : l.isEmpty = false := by
  simp only [labelStrings, List.mem_cons, List.not_mem_nil, or_false] at hmem
  rcases hmem with rfl | rfl | rfl | rfl | rfl <;> decide

theorem splitLabelsGo_no_label (l : List Char) (hmem : l ∈ labelStrings) :
    ∀ s : List Char, listSub l (splitLabelsGo s) = false := by
  intro s
  induction s with
  | nil => exact labelStrings_ne_nil l hmem
  | cons c r ih =>
    unfold splitLabelsGo
    split
    · exact labelStrings_ne_nil l hmem
    · rename_i hcond
      unfold listSub
      rw [ih, Bool.or_false]
      rcases hpfx : l.isPrefixOf (c :: splitLabelsGo r) with _ | _
      · rfl
      · exfalso
        apply hcond
        rw [List.any_eq_true]
        refine ⟨l, hmem, ?_⟩
        rw [ List.isPrefixOf_iff_prefix] at hpfx ⊢
        have hmid : c :: splitLabelsGo r <+: c :: r := by
          obtain ⟨t, ht⟩ := splitLabelsGo_front r
          exact ⟨t, by simp [ht]⟩
        exact hpfx.trans hmid

theorem pyStrip_within (s : List Char) : pyStrip s <:+: s := by
  unfold pyStrip
  have h1 : s.dropWhile pyIsSpace <:+ s := List.dropWhile_suffix pyIsSpace
  have h2 : ((s.dropWhile pyIsSpace).reverse.dropWhile pyIsSpace).reverse <+:
      s.dropWhile pyIsSpace := by
    rw [← List.reverse_suffix]
    simp only [List.reverse_reverse]
    exact List.dropWhile_suffix pyIsSpace
  exact h2.isInfix.trans h1.isInfix

theorem listSub_mono_within (l b y : List Char) (hinf : b <:+: y)
    (hy : listSub l y = false) : listSub l b = false := by
  rcases hb : listSub l b with _ | _
  · rfl
  · rw [listSub_iff] at hb
    have : listSub l y = true := by rw [listSub_iff]; exact hb.trans hinf
    rw [this] at hy
    exact hy

/-- C6 counterexample: the labels in `_clean_text` are matched
case-sensitively, so a lowercase "texture:" does not truncate the value; the
case-insensitive reading in the claim would give color Soft here, but the code
keeps (and title-cases) the whole value. -/
theorem spec_c6_counterexample :
    cleanText (("Soft texture: Crumbly").toList) = ("Soft texture: Crumbly").toList ∧
    (extract_data (("Colour: Soft texture: Crumbly").toList) [] (initData [])).map
      CheeseData.color = some (("Soft Texture: Crumbly").toList) ∧
    ("Soft Texture: Crumbly").toList ≠ ("Soft").toList := by
  refine ⟨by decide, by decide, by decide⟩

/-- C6 amended: cleaning collapses whitespace runs to single spaces and
truncates the value at the first occurrence of a label written exactly as
"Type:", "Texture:", "Rind:", "Flavour:" or "Flavor:" (case-sensitively);
consequently no cleaned value contains any of these labels, and the example
in the claim works when the label appears with its exact capitalization. -/
theorem spec_c6_amended :
    (extract_data (("Colour: Soft Texture: Crumbly").toList) [] (initData [])).map
      CheeseData.color = some (("Soft").toList) ∧
    cleanText (("Soft Texture: Crumbly").toList) = ("Soft").toList ∧
    cleanText (("a \n b").toList) = ("a b").toList ∧
    (∀ (s l : List Char), l ∈ labelStrings → listSub l (cleanText s) = false) := by
  refine ⟨by decide, by decide, by decide, ?_⟩
  intro s l hmem
  unfold cleanText
  exact listSub_mono_within l _ _ (pyStrip_within _)
    (splitLabelsGo_no_label l hmem (joinSpace (splitWsGo [] s)))

/-- Witness for C6: the no-label-survives property at a concrete value. -/
theorem spec_c6_witness :
    listSub (("Texture:").toList) (cleanText (("x Texture: y").toList)) = false :=
  spec_c6_amended.2.2.2 (("x Texture: y").toList) (("Texture:").toList) (by decide)

/-! ### Parser projection lemmas -/

theorem handle_starttag_name (tag : List Char) (attrs : List (List Char × List Char))
    (s : PState) : (handle_starttag tag attrs s).dat.name = s.dat.name := by
  unfold handle_starttag
  try dsimp only
  repeat' split
  all_goals rfl

theorem handle_starttag_in_h1 (tag : List Char) (attrs : List (List Char × List Char))
    (s : PState) :
    (handle_starttag tag attrs s).in_h1 = (if tag = ("h1").toList then true else s.in_h1) := by
  unfold handle_starttag
  try dsimp only
  repeat' split
  all_goals rfl

theorem handle_endtag_name (tag : List Char) (s : PState) :
    (handle_endtag tag s).dat.name = s.dat.name := by
  unfold handle_endtag
  try dsimp only
  repeat' split
  all_goals rfl

theorem handle_endtag_in_h1 (tag : List Char) (s : PState) :
    (handle_endtag tag s).in_h1 = (if tag = ("h1").toList then false else s.in_h1) := by
  unfold handle_endtag
  try dsimp only
  repeat' split
  all_goals rfl

theorem handle_data_name (txt : List Char) (s : PState) :
    (handle_data txt s).dat.name = (if s.in_h1 then pyStrip txt else s.dat.name) := by
  unfold handle_data
  try dsimp only
  repeat' split
  all_goals rfl

theorem handle_data_in_h1 (txt : List Char) (s : PState) :
    (handle_data txt s).in_h1 = s.in_h1 := by
  unfold handle_data
  try dsimp only
  repeat' split
  all_goals rfl

theorem handle_starttag_in_description (tag : List Char)
    (attrs : List (List Char × List Char)) (s : PState) :
    (handle_starttag tag attrs s).in_description =
      (if tag = ("div").toList &&
          lookupAttr attrs (("id").toList) = some (("collapse-description").toList)
       then true else s.in_description) := by
  unfold handle_starttag
  try dsimp only
  repeat' split
  all_goals rfl

theorem handle_starttag_paragraphs (tag : List Char)
    (attrs : List (List Char × List Char)) (s : PState) :
    (handle_starttag tag attrs s).description_paragraphs =
      (if tag = ("p").toList &&
          (if tag = ("div").toList &&
              lookupAttr attrs (("id").toList) = some (("collapse-description").toList)
           then true else s.in_description)
       then s.description_paragraphs ++ [[]] else s.description_paragraphs) := by
  unfold handle_starttag
  try dsimp only
  repeat' split
  all_goals rfl

theorem handle_endtag_in_description (tag : List Char) (s : PState) :
    (handle_endtag tag s).in_description =
      (if tag = ("div").toList then false else s.in_description) := by
  unfold handle_endtag
  try dsimp only
  repeat' split
  all_goals rfl

theorem handle_endtag_paragraphs (tag : List Char) (s : PState) :
    (handle_endtag tag s).description_paragraphs = s.description_paragraphs := by
  unfold handle_endtag
  try dsimp only
  repeat' split
  all_goals rfl

theorem handle_data_in_description (txt : List Char) (s : PState) :
    (handle_data txt s).in_description = s.in_description := by
  unfold handle_data
  try dsimp only
  repeat' split
  all_goals rfl

theorem handle_data_paragraphs (txt : List Char) (s : PState) :
    (handle_data txt s).description_paragraphs =
      (if s.in_description && !s.description_paragraphs.isEmpty
       then appendToLast s.description_paragraphs txt else s.description_paragraphs) := by
  unfold handle_data
  try dsimp only
  repeat' split
  all_goals rfl

/-! ### Name extraction (C4) -/

theorem foldl_name (evs : List HEvent) :
    ∀ s : PState,
      (evs.foldl handleEvent s).dat.name = (lastH1Text s.in_h1 evs).getD s.dat.name := by
  induction evs with
  | nil => intro s; rfl
  | cons e r ih =>
    intro s
    rw [List.foldl_cons, ih (handleEvent s e)]
    cases e with
    | tagOpen tg attrs =>
      rw [show handleEvent s (.tagOpen tg attrs) = handle_starttag tg attrs s from rfl,
        handle_starttag_name, handle_starttag_in_h1]
      rfl
    | tagClose tg =>
      rw [show handleEvent s (.tagClose tg) = handle_endtag tg s from rfl,
        handle_endtag_name, handle_endtag_in_h1]
      rfl
    | text d =>
      rw [show handleEvent s (.text d) = handle_data d s from rfl,
        handle_data_name, handle_data_in_h1]
      by_cases hb : s.in_h1
      · rcases hl : lastH1Text true r with _ | v
        · simp [lastH1Text, hb, hl]
        · simp [lastH1Text, hb, hl]
      · simp [lastH1Text, hb]

/-- C4 counterexample: with two headings the recorded name is the text of the second
heading, not the first: each heading text overwrites the name. -/
theorem spec_c4_counterexample :
    (runParser twoHeadingsDoc []).dat.name = ("B").toList ∧
    ("B").toList ≠ ("A").toList := by
  refine ⟨by decide, by decide⟩

/-- C4 amended: the name of the record is the stripped text of the last text
chunk encountered while inside a heading element — later headings (and later
chunks in the same heading) overwrite earlier ones, so the name equals the
text of the last heading, and is empty when no heading text occurs. -/
theorem spec_c4_amended (evs : List HEvent) (url : List Char) :
    (runParser evs url).dat.name = (lastH1Text false evs).getD [] := by
  unfold runParser
  rw [foldl_name]
  rfl

/-- Witness for C4 at the two-heading document. -/
theorem spec_c4_witness :
    (runParser twoHeadingsDoc []).dat.name = (lastH1Text false twoHeadingsDoc).getD [] :=
  spec_c4_amended twoHeadingsDoc []

/-! ### Description paragraph collection (C7) -/

theorem foldl_paragraphs (evs : List HEvent) :
    ∀ s : PState,
      (evs.foldl handleEvent s).description_paragraphs =
        specParas s.in_description s.description_paragraphs evs := by
  induction evs with
  | nil => intro s; rfl
  | cons e r ih =>
    intro s
    rw [List.foldl_cons, ih (handleEvent s e)]
    cases e with
    | tagOpen tg attrs =>
      rw [show handleEvent s (.tagOpen tg attrs) = handle_starttag tg attrs s from rfl,
        handle_starttag_in_description, handle_starttag_paragraphs]
      rfl
    | tagClose tg =>
      rw [show handleEvent s (.tagClose tg) = handle_endtag tg s from rfl,
        handle_endtag_in_description, handle_endtag_paragraphs]
      rfl
    | text d =>
      rw [show handleEvent s (.text d) = handle_data d s from rfl,
        handle_data_in_description, handle_data_paragraphs]
      rfl

/-- C7 counterexample: a text chunk between a paragraph close and the next
paragraph, inside the container, is appended to the accumulator of the
previous paragraph: the collected paragraph is "AX", not "A". -/
theorem spec_c7_counterexample :
    (runParser descBleedDoc []).description_paragraphs = [("AX").toList] ∧
    [("AX").toList] ≠ [("A").toList] := by
  refine ⟨by decide, by decide⟩

/-- C7 amended: a paragraph open tag while the container flag is set starts
a new accumulator, and every text chunk while the flag is set and at least
one accumulator exists — including text after the close tag of that paragraph — is
appended to the most recently opened accumulator; the flag is set by the
designated container open tag and cleared by any div close tag, and text
outside the container or before the first paragraph is never collected. -/
theorem spec_c7_amended (evs : List HEvent) (url : List Char) :
    (runParser evs url).description_paragraphs = specParas false [] evs := by
  unfold runParser
  rw [foldl_paragraphs]
  rfl

/-- Witness for C7 at the bleeding-text document. -/
theorem spec_c7_witness :
    (runParser descBleedDoc []).description_paragraphs = specParas false [] descBleedDoc :=
  spec_c7_amended descBleedDoc []

end Cheese
